import Mathlib

/-!
Verification development for the queue consumer/producer module
(`src/worker/src/queue.rs`): a shallow embedding of the message-batch
iteration/deserialization engine and of the asynchronous send path,
with theorems checking the module's documented contract.

JavaScript values reachable through the host boundary are modelled by a
small inductive type; `Reflect.get` is modelled with its standard
semantics (a field read on a non-object raises a `TypeError`; a field
read on an object yields the field's value, or `undefined` when the
field is absent).  Generic serde (de)serialization is modelled as an
explicit function parameter `JsValue → Except ε T`.
-/

/-- Model of an opaque JavaScript value delivered by the host. -/
inductive JsValue : Type where
  | undefined : JsValue
  | null : JsValue
  | boolean : Bool → JsValue
  | num : Int → JsValue
  | str : String → JsValue
  | obj : List (String × JsValue) → JsValue

/-- Model of `js_sys::Reflect::get`: reading a named property.  On a
non-object target it fails with a `TypeError`; on an object it returns
the property's value, or `undefined` when the property is absent. -/
def reflectGet (target : JsValue) (key : String) : Except JsValue JsValue :=
  match target with
  | .obj fields => .ok ((fields.lookup key).getD .undefined)
  | _ => .error (.str "TypeError: Reflect.get called on non-object")

/-- Model of `JsValue::as_string`: `some` exactly when the value is a
JavaScript string. -/
def JsValue.as_string : JsValue → Option String
  | .str s => some s
  | _ => none

/-- Model of a `js_sys::Date` obtained by conversion: the conversion
`js_sys::Date::from(value)` is total and keeps the supplied value as-is
(no calendar validation is performed). -/
structure JsDate : Type where
  value : JsValue

/-- `js_sys::Date::from`: total conversion of any value to a date. -/
def jsDateFrom (v : JsValue) : JsDate := ⟨v⟩

/-- The crate's `Date` wrapper around a `js_sys::Date`. -/
structure Date : Type where
  js : JsDate

/-- `worker::Date::from(js_sys::Date)`: total wrapping conversion. -/
def dateFrom (d : JsDate) : Date := ⟨d⟩

/-- `Message<T>` from `queue.rs`: the decoded form of one batch entry. -/
structure Message (T : Type) : Type where
  body : T
  timestamp : Date
  id : String

/-- Modelled from the spec: the crate's `Error` type lives outside this
module (`error.rs` is not part of the source under verification), so its
shape follows the spec's error taxonomy.  The constructors are:
`jsError` for an explicitly constructed `Error::JsError` (the module
builds the missing-identifier error this way), `fieldAccess` for the
`From<JsValue>` conversion applied by `?` to a failed `Reflect::get`
(the spec's `FieldAccessError`), `serde` for the `From` conversion of a
serde error (the spec's `SerializationError`/`DeserializationError`),
and `transport` for a host rejection of a submission (the spec's
`TransportError`). -/
inductive QError (ε : Type) : Type where
  | jsError : String → QError ε
  | fieldAccess : JsValue → QError ε
  | serde : ε → QError ε
  | transport : JsValue → QError ε

/-- The literal message of the missing-identifier error in `queue.rs`. -/
def missingIdMsg : String := "Invalid message batch. Failed to get id from message."

/-- The `MissingIdentifierError` of the spec, as `queue.rs` builds it. -/
def missingIdError (ε : Type) : QError ε := .jsError missingIdMsg

def BODY_KEY_STR : String := "body"
def ID_KEY_STR : String := "id"
def TIMESTAMP_KEY_STR : String := "timestamp"

/-- `parse_message` from `queue.rs`: reads `timestamp` (converted to a
date immediately), then `id` (must be a string), then `body` (decoded by
the generic deserializer `deser`); each `?` failure is modelled by the
corresponding `QError` constructor. -/
def parse_message {T ε : Type} (deser : JsValue → Except ε T) (message : JsValue) :
    Except (QError ε) (Message T) :=
  match reflectGet message TIMESTAMP_KEY_STR with
  | .error j => .error (.fieldAccess j)
  | .ok tsv =>
    let js_date := jsDateFrom tsv
    match reflectGet message ID_KEY_STR with
    | .error j => .error (.fieldAccess j)
    | .ok idv =>
      match idv.as_string with
      | none => .error (missingIdError ε)
      | some id =>
        match reflectGet message BODY_KEY_STR with
        | .error j => .error (.fieldAccess j)
        | .ok bv =>
          match deser bv with
          | .error e => .error (.serde e)
          | .ok body => .ok { id := id, body := body, timestamp := dateFrom js_date }

/-- Rust's `std::ops::Range<u32>` as used for the iterator cursor:
the half-open interval `[start, stop)`.  (`end` is a Lean keyword, so
the upper bound is called `stop`.) -/
structure NatRange : Type where
  start : Nat
  stop : Nat

/-- `Range::next`: if `start < stop`, yield `start` and advance it. -/
def NatRange.next (r : NatRange) : Option Nat × NatRange :=
  if r.start < r.stop then (some r.start, ⟨r.start + 1, r.stop⟩) else (none, r)

/-- `Range::next_back`: if `start < stop`, yield `stop - 1` and shrink. -/
def NatRange.next_back (r : NatRange) : Option Nat × NatRange :=
  if r.start < r.stop then (some (r.stop - 1), ⟨r.start, r.stop - 1⟩) else (none, r)

/-- A direction of one iterator step: forward (`Iterator::next`) or
backward (`DoubleEndedIterator::next_back`). -/
inductive Dir : Type where
  | fwd : Dir
  | bwd : Dir

/-- One cursor step of the range in the given direction. -/
def NatRange.step (d : Dir) (r : NatRange) : Option Nat × NatRange :=
  match d with
  | .fwd => r.next
  | .bwd => r.next_back

/-- Model of `js_sys::Array::get`: out-of-bounds reads give `undefined`. -/
def arrayGet (a : List JsValue) (index : Nat) : JsValue :=
  a.getD index .undefined

/-- `MessageIter` from `queue.rs`: a cursor range over the entry array.
The field-key handles and the phantom type parameter carry no data and
are dropped; the target type appears as the deserializer argument of
each stepping function. -/
structure MessageIter : Type where
  range : NatRange
  array : List JsValue

/-- `MessageIter::next`: take the next index from the range (if any) and
decode the entry at that index. -/
def MessageIter.next {T ε : Type} (deser : JsValue → Except ε T) (it : MessageIter) :
    Option (Except (QError ε) (Message T)) × MessageIter :=
  match it.range.next with
  | (none, r) => (none, ⟨r, it.array⟩)
  | (some index, r) => (some (parse_message deser (arrayGet it.array index)), ⟨r, it.array⟩)

/-- `MessageIter::next_back`: take the next index from the back of the
range (if any) and decode the entry at that index. -/
def MessageIter.next_back {T ε : Type} (deser : JsValue → Except ε T) (it : MessageIter) :
    Option (Except (QError ε) (Message T)) × MessageIter :=
  match it.range.next_back with
  | (none, r) => (none, ⟨r, it.array⟩)
  | (some index, r) => (some (parse_message deser (arrayGet it.array index)), ⟨r, it.array⟩)

/-- One iterator step in the given direction. -/
def MessageIter.step {T ε : Type} (deser : JsValue → Except ε T) (d : Dir) (it : MessageIter) :
    Option (Except (QError ε) (Message T)) × MessageIter :=
  match d with
  | .fwd => it.next deser
  | .bwd => it.next_back deser

/-- `ExactSizeIterator`/`size_hint` for `MessageIter`: the exact number
of remaining items, `stop - start`. -/
def MessageIter.size_hint (it : MessageIter) : Nat :=
  it.range.stop - it.range.start

/-- `MessageBatch<T>` from `queue.rs`.  The queue name and the entry
array mirror the host batch object; `retry_requested` is modelled from
the spec: the host-side advisory retry marker behind
`MessageBatchSys::retry_all` (the host binding is not part of the source
under verification), described as a batch-level flag with deferred
effect. -/
structure MessageBatch : Type where
  queue : String
  messages : List JsValue
  retry_requested : Bool

/-- `MessageBatch::retry_all`.  Modelled from the spec: marks the whole
batch for redelivery by setting the advisory retry marker. -/
def MessageBatch.retry_all (b : MessageBatch) : MessageBatch :=
  { b with retry_requested := true }

/-- `MessageBatch::iter`: a fresh iterator whose cursor covers the full
entry range `[0, messages.length)`. -/
def MessageBatch.iter (b : MessageBatch) : MessageIter :=
  ⟨⟨0, b.messages.length⟩, b.messages⟩

/-- Calling `retry_all` `n` times in a row. -/
def retryAllTimes : Nat → MessageBatch → MessageBatch
  | 0, b => b
  | n + 1, b => retryAllTimes n b.retry_all

/-- Full forward traversal: repeatedly step the iterator forward and
collect every yielded item (the body of a `for` loop over the
iterator, with `Iterator::next` inlined). -/
def drainFwd {T ε : Type} (deser : JsValue → Except ε T) (it : MessageIter) :
    List (Except (QError ε) (Message T)) :=
  if h : it.range.start < it.range.stop then
    parse_message deser (arrayGet it.array it.range.start) ::
      drainFwd deser ⟨⟨it.range.start + 1, it.range.stop⟩, it.array⟩
  else []
termination_by it.range.stop - it.range.start
decreasing_by omega

/-- Full backward traversal: repeatedly step the iterator backward and
collect every yielded item (`DoubleEndedIterator::next_back` inlined). -/
def drainBwd {T ε : Type} (deser : JsValue → Except ε T) (it : MessageIter) :
    List (Except (QError ε) (Message T)) :=
  if h : it.range.start < it.range.stop then
    parse_message deser (arrayGet it.array (it.range.stop - 1)) ::
      drainBwd deser ⟨⟨it.range.start, it.range.stop - 1⟩, it.array⟩
  else []
termination_by it.range.stop - it.range.start
decreasing_by omega

/-- Run a list of directed cursor steps on a range, recording for each
step the index it consumed (`none` when the range was exhausted). -/
def runRange : List Dir → NatRange → List (Option Nat) × NatRange
  | [], r => ([], r)
  | d :: ds, r =>
    let s := r.step d
    let rest := runRange ds s.2
    (s.1 :: rest.1, rest.2)

/-- Run a list of directed iterator steps, recording each step's yielded
item (`none` when the iterator was exhausted). -/
def runIter {T ε : Type} (deser : JsValue → Except ε T) :
    List Dir → MessageIter → List (Option (Except (QError ε) (Message T))) × MessageIter
  | [], it => ([], it)
  | d :: ds, it =>
    let s := it.step deser d
    let rest := runIter deser ds s.2
    (s.1 :: rest.1, rest.2)

/-- `Queue::send` from `queue.rs`, with the host transport modelled from
the spec as a function from the serialized payload to the host's
acknowledgment or rejection (the `worker_sys` queue binding is not part
of the source under verification).  The second component records the
payloads actually handed to the host transport, so that "no host call"
is observable. -/
def Queue.send {T ε : Type} (ser : T → Except ε JsValue)
    (host : JsValue → Except JsValue Unit) (message : T) :
    Except (QError ε) Unit × List JsValue :=
  match ser message with
  | .error e => (.error (.serde e), [])
  | .ok js_value =>
    match host js_value with
    | .error j => (.error (.transport j), [js_value])
    | .ok _ => (.ok (), [js_value])

/-- A concrete deserializer for witnesses: decodes a JavaScript number
to `Int`, failing on any other shape. -/
def deserInt : JsValue → Except String Int
  | .num n => .ok n
  | _ => .error "invalid type: expected a number"

/-- A concrete serializer for witnesses: encodes an `Int` as a
JavaScript number (total, hence never the error case). -/
def serInt (n : Int) : Except String JsValue := .ok (.num n)

/-- A well-formed two-entry example batch: entry 0. -/
def entryA : JsValue :=
  .obj [("id", .str "a"), ("timestamp", .num 1), ("body", .num 10)]

/-- A well-formed two-entry example batch: entry 1. -/
def entryB : JsValue :=
  .obj [("id", .str "b"), ("timestamp", .num 2), ("body", .num 20)]

/-- The decoded messages of the example batch. -/
def msgsAB : List (Message Int) :=
  [⟨10, dateFrom (jsDateFrom (.num 1)), "a"⟩, ⟨20, dateFrom (jsDateFrom (.num 2)), "b"⟩]

/-- A concrete batch over the two example entries. -/
def batchAB : MessageBatch := ⟨"q", [entryA, entryB], false⟩

/-- A concrete interleaving of three steps. -/
def dsW : List Dir := [Dir.fwd, Dir.bwd, Dir.fwd]

/-- A concrete (empty, exhausted) iterator. -/
def itW : MessageIter := ⟨⟨0, 0⟩, []⟩

/-- An entry whose `body` is not a number, so `deserInt` fails on it. -/
def entryBadBody : JsValue :=
  .obj [("id", .str "c"), ("timestamp", .num 3), ("body", .str "not-a-number")]

/-- An always-acknowledging host transport, for witnesses. -/
def hostOkW : JsValue → Except JsValue Unit := fun _ => .ok ()

/-- A forward drain starting at index `l` yields the decodes of the
entries from `l` to the end of the array, in array order. -/
lemma drainFwd_eq_drop {T ε : Type} (deser : JsValue → Except ε T) :
    ∀ (n l : Nat) (a : List JsValue), l + n = a.length →
      drainFwd deser ⟨⟨l, a.length⟩, a⟩ = (a.drop l).map (parse_message deser) := by
  intro n
  induction n with
  | zero =>
    intro l a hl
    rw [drainFwd]
    simp only [show l = a.length by omega]
    simp
  | succ n ih =>
    intro l a hl
    have hlt : l < a.length := by omega
    rw [drainFwd]
    simp only [hlt, dif_pos]
    rw [ih (l + 1) a (by omega)]
    rw [List.drop_eq_getElem_cons hlt, List.map_cons]
    have hget : arrayGet a l = a[l] := by
      simp [arrayGet, List.getD, List.getElem?_eq_getElem hlt]
    rw [hget]

/-- A backward drain over `[0, h0)` yields the decodes of the first `h0`
entries, in reversed array order. -/
lemma drainBwd_eq_take {T ε : Type} (deser : JsValue → Except ε T) :
    ∀ (h0 : Nat) (a : List JsValue), h0 ≤ a.length →
      drainBwd deser ⟨⟨0, h0⟩, a⟩ = ((a.take h0).map (parse_message deser)).reverse := by
  intro h0
  induction h0 with
  | zero =>
    intro a _
    rw [drainBwd]
    simp
  | succ n ih =>
    intro a ha
    have hlt : n < a.length := by omega
    rw [drainBwd]
    simp only [Nat.succ_sub_one, dif_pos (Nat.succ_pos n)]
    rw [ih a (by omega)]
    rw [← List.take_concat_get' a n hlt, List.map_append, List.reverse_append]
    have hget : arrayGet a n = a[n] := by
      simp [arrayGet, List.getD, List.getElem?_eq_getElem hlt]
    rw [hget]
    simp

/-- C1: for a batch of `N` entries that all decode successfully, forward
iteration yields exactly `N` `Ok` messages, in the host-delivered entry
order `0, 1, …, N-1`, with each message's fields extracted from its
entry by `parse_message`; a fresh backward iteration yields the same
`N` values in exactly reversed order. -/
theorem c1_forward_backward_order {T ε : Type} (deser : JsValue → Except ε T)
    (b : MessageBatch) (msgs : List (Message T))
    (h : b.messages.map (parse_message deser) = msgs.map Except.ok) :
    drainFwd deser b.iter = msgs.map Except.ok ∧
    drainBwd deser b.iter = (msgs.map Except.ok).reverse ∧
    (drainFwd deser b.iter).length = b.messages.length ∧
    msgs.length = b.messages.length := by
  have hf : drainFwd deser b.iter = b.messages.map (parse_message deser) := by
    have h0 := drainFwd_eq_drop deser b.messages.length 0 b.messages (by omega)
    simpa [MessageBatch.iter] using h0
  have hb : drainBwd deser b.iter = (b.messages.map (parse_message deser)).reverse := by
    have h0 := drainBwd_eq_take deser b.messages.length b.messages le_rfl
    simpa [MessageBatch.iter] using h0
  have hlen : msgs.length = b.messages.length := by
    have := congrArg List.length h
    simpa using this.symm
  refine ⟨by rw [hf, h], by rw [hb, h], ?_, hlen⟩
  rw [hf, h]
  simp [hlen]

/-- Witness for C1 at the concrete two-entry batch. -/
theorem c1_forward_backward_order_witness :
    ((MessageBatch.mk "q" [entryA, entryB] false).messages.map (parse_message deserInt) =
      msgsAB.map Except.ok) ∧
    (drainFwd deserInt (MessageBatch.mk "q" [entryA, entryB] false).iter =
        msgsAB.map Except.ok ∧
      drainBwd deserInt (MessageBatch.mk "q" [entryA, entryB] false).iter =
        (msgsAB.map Except.ok).reverse ∧
      (drainFwd deserInt (MessageBatch.mk "q" [entryA, entryB] false).iter).length =
        (MessageBatch.mk "q" [entryA, entryB] false).messages.length ∧
      msgsAB.length = (MessageBatch.mk "q" [entryA, entryB] false).messages.length) :=
  ⟨by rfl, c1_forward_backward_order deserInt ⟨"q", [entryA, entryB], false⟩ msgsAB (by rfl)⟩

/-- One iterator step is the corresponding cursor step plus decoding of
the consumed entry; the entry array is untouched. -/
lemma MessageIter.step_eq {T ε : Type} (deser : JsValue → Except ε T) (d : Dir)
    (it : MessageIter) :
    it.step deser d =
      (((it.range.step d).1).map (fun i => parse_message deser (arrayGet it.array i)),
        ⟨(it.range.step d).2, it.array⟩) := by
  cases d <;> by_cases h : it.range.start < it.range.stop <;>
    simp [MessageIter.step, MessageIter.next, MessageIter.next_back, NatRange.step,
      NatRange.next, NatRange.next_back, h]

/-- A run of iterator steps yields exactly the decodes of the indices
consumed by the same run of cursor steps, and ends with the same cursor. -/
lemma runIter_eq_runRange {T ε : Type} (deser : JsValue → Except ε T) :
    ∀ (ds : List Dir) (r : NatRange) (a : List JsValue),
      (runIter deser ds ⟨r, a⟩).1 =
        (runRange ds r).1.map (Option.map (fun i => parse_message deser (arrayGet a i))) ∧
      (runIter deser ds ⟨r, a⟩).2 = ⟨(runRange ds r).2, a⟩ := by
  intro ds
  induction ds with
  | nil => intro r a; simp [runIter, runRange]
  | cons d ds ih =>
    intro r a
    obtain ⟨ih1, ih2⟩ := ih (r.step d).2 a
    simp only [runIter, runRange, MessageIter.step_eq]
    exact ⟨by rw [ih1, List.map_cons], ih2⟩

/-- Invariant of an arbitrary interleaved run of cursor steps on a range
`[start, stop)`: the final cursor stays nested inside the initial one,
every consumed index lies in the initial range but outside the final
one, no index is consumed twice, and the `k`-th step consumes an index
exactly when `k < stop - start`. -/
lemma runRange_spec (ds : List Dir) : ∀ (r : NatRange), r.start ≤ r.stop →
    r.start ≤ (runRange ds r).2.start ∧
    (runRange ds r).2.start ≤ (runRange ds r).2.stop ∧
    (runRange ds r).2.stop ≤ r.stop ∧
    (∀ i ∈ (runRange ds r).1.filterMap id,
      r.start ≤ i ∧ i < r.stop ∧
        (i < (runRange ds r).2.start ∨ (runRange ds r).2.stop ≤ i)) ∧
    ((runRange ds r).1.filterMap id).Nodup ∧
    (runRange ds r).1.map Option.isSome =
      (List.range ds.length).map (fun k => decide (k < r.stop - r.start)) := by
  induction ds with
  | nil =>
    intro r hr
    simp [runRange, hr]
  | cons d ds ih =>
    intro r hr
    by_cases hlt : r.start < r.stop
    · cases d with
      | fwd =>
        obtain ⟨ih1, ih2, ih3, ih4, ih5, ih6⟩ := ih ⟨r.start + 1, r.stop⟩ (by simp; omega)
        have hstep : runRange (Dir.fwd :: ds) r =
            ((some r.start) :: (runRange ds ⟨r.start + 1, r.stop⟩).1,
              (runRange ds ⟨r.start + 1, r.stop⟩).2) := by
          simp [runRange, NatRange.step, NatRange.next, hlt]
        rw [hstep]
        dsimp only
        simp only at ih1 ih2 ih3 ih4 ih5 ih6
        refine ⟨by omega, ih2, ih3, ?_, ?_, ?_⟩
        · simp only [List.filterMap_cons, id, List.mem_cons]
          rintro i (rfl | hi)
          · exact ⟨le_rfl, hlt, Or.inl (by omega)⟩
          · obtain ⟨hi1, hi2, hi3⟩ := ih4 i hi
            exact ⟨by omega, hi2, hi3⟩
        · simp only [List.filterMap_cons, id, List.nodup_cons]
          refine ⟨fun hmem => ?_, ih5⟩
          obtain ⟨hi1, _, _⟩ := ih4 _ hmem
          omega
        · simp only [List.map_cons, List.length_cons, List.range_succ_eq_map,
            Option.isSome_some]
          rw [ih6]
          refine congrArg₂ _ (by simp [hlt]) ?_
          rw [List.map_map]
          refine List.map_congr_left fun k _ => ?_
          simp only [Function.comp_apply]
          rw [decide_eq_decide]
          omega
      | bwd =>
        obtain ⟨ih1, ih2, ih3, ih4, ih5, ih6⟩ := ih ⟨r.start, r.stop - 1⟩ (by simp; omega)
        have hstep : runRange (Dir.bwd :: ds) r =
            ((some (r.stop - 1)) :: (runRange ds ⟨r.start, r.stop - 1⟩).1,
              (runRange ds ⟨r.start, r.stop - 1⟩).2) := by
          simp [runRange, NatRange.step, NatRange.next_back, hlt]
        rw [hstep]
        dsimp only
        simp only at ih1 ih2 ih3 ih4 ih5 ih6
        refine ⟨ih1, ih2, by omega, ?_, ?_, ?_⟩
        · simp only [List.filterMap_cons, id, List.mem_cons]
          rintro i (rfl | hi)
          · exact ⟨by omega, by omega, Or.inr (by omega)⟩
          · obtain ⟨hi1, hi2, hi3⟩ := ih4 i hi
            exact ⟨hi1, by omega, hi3⟩
        · simp only [List.filterMap_cons, id, List.nodup_cons]
          refine ⟨fun hmem => ?_, ih5⟩
          obtain ⟨_, hi2, _⟩ := ih4 _ hmem
          omega
        · simp only [List.map_cons, List.length_cons, List.range_succ_eq_map,
            Option.isSome_some]
          rw [ih6]
          refine congrArg₂ _ (by simp [hlt]) ?_
          rw [List.map_map]
          refine List.map_congr_left fun k _ => ?_
          simp only [Function.comp_apply]
          rw [decide_eq_decide]
          omega
    · obtain ⟨ih1, ih2, ih3, ih4, ih5, ih6⟩ := ih r hr
      have hstep : runRange (d :: ds) r = (none :: (runRange ds r).1, (runRange ds r).2) := by
        cases d <;>
          simp [runRange, NatRange.step, NatRange.next, NatRange.next_back, hlt]
      rw [hstep]
      dsimp only
      refine ⟨ih1, ih2, ih3, ?_, ?_, ?_⟩
      · simpa [List.filterMap_cons] using ih4
      · simpa [List.filterMap_cons] using ih5
      · simp only [List.map_cons, List.length_cons, List.range_succ_eq_map,
          Option.isSome_none]
        rw [ih6]
        have h0 : r.stop - r.start = 0 := by omega
        refine congrArg₂ _ (by simp [h0]) ?_
        rw [List.map_map]
        refine List.map_congr_left fun k _ => ?_
        simp only [Function.comp_apply]
        rw [decide_eq_decide]
        omega

/-- C3: over a batch of `N` entries, any interleaving of forward and
backward steps on one iterator consumes no entry index twice; the `k`-th
step yields an item exactly when `k < N` (so exactly `N` steps yield an
item and all later steps yield end-of-sequence); each yielded item is
the decode of the consumed index's entry; and a step (in either
direction) yields end-of-sequence exactly when the cursor satisfies
`start = stop`. -/
theorem c3_interleaving_no_repeat {T ε : Type} (deser : JsValue → Except ε T)
    (b : MessageBatch) (ds : List Dir) (it : MessageIter) (d : Dir)
    (hle : it.range.start ≤ it.range.stop) :
    ((runRange ds ⟨0, b.messages.length⟩).1.filterMap id).Nodup ∧
    (runRange ds ⟨0, b.messages.length⟩).1.map Option.isSome =
      (List.range ds.length).map (fun k => decide (k < b.messages.length)) ∧
    (runIter deser ds b.iter).1 =
      (runRange ds ⟨0, b.messages.length⟩).1.map
        (Option.map (fun i => parse_message deser (arrayGet b.messages i))) ∧
    ((it.step deser d).1 = none ↔ it.range.start = it.range.stop) := by
  obtain ⟨h1, h2, h3, h4, h5, h6⟩ :=
    runRange_spec ds ⟨0, b.messages.length⟩ (by simp)
  refine ⟨h5, ?_, ?_, ?_⟩
  · rw [h6]
    simp
  · exact (runIter_eq_runRange deser ds ⟨0, b.messages.length⟩ b.messages).1
  · rw [MessageIter.step_eq]
    simp only [Option.map_eq_none']
    cases d <;>
      simp only [NatRange.step, NatRange.next, NatRange.next_back] <;>
      by_cases hlt : it.range.start < it.range.stop <;>
      simp [hlt] <;> omega

/-- Witness for C3 at a concrete batch, interleaving and iterator. -/
theorem c3_interleaving_no_repeat_witness :
    itW.range.start ≤ itW.range.stop ∧
    (((runRange dsW ⟨0, batchAB.messages.length⟩).1.filterMap id).Nodup ∧
      (runRange dsW ⟨0, batchAB.messages.length⟩).1.map Option.isSome =
        (List.range dsW.length).map (fun k => decide (k < batchAB.messages.length)) ∧
      (runIter deserInt dsW batchAB.iter).1 =
        (runRange dsW ⟨0, batchAB.messages.length⟩).1.map
          (Option.map (fun i => parse_message deserInt (arrayGet batchAB.messages i))) ∧
      ((itW.step deserInt Dir.fwd).1 = none ↔ itW.range.start = itW.range.stop)) :=
  ⟨by decide, c3_interleaving_no_repeat deserInt batchAB dsW itW Dir.fwd (by decide)⟩

/-- Replacing an entry at one index does not change reads elsewhere. -/
lemma arrayGet_set_ne (a : List JsValue) (i j : Nat) (v : JsValue) (h : i ≠ j) :
    arrayGet (a.set i v) j = arrayGet a j := by
  simp [arrayGet, List.getD, List.getElem?_set_ne h]

/-- What one cursor step consumes: the index lies in the range that was
stepped and outside the resulting range, and the resulting range is
nested in the stepped one. -/
lemma rangeStep_consumed (d : Dir) (r : NatRange) (i : Nat)
    (hstep : (r.step d).1 = some i) :
    r.start ≤ i ∧ i < r.stop ∧
    r.start ≤ (r.step d).2.start ∧ (r.step d).2.stop ≤ r.stop ∧
    (r.step d).2.start ≤ (r.step d).2.stop ∧
    (i < (r.step d).2.start ∨ (r.step d).2.stop ≤ i) := by
  cases d <;>
    simp only [NatRange.step, NatRange.next, NatRange.next_back] at hstep ⊢ <;>
    by_cases hlt : r.start < r.stop <;>
    simp [hlt] at hstep ⊢ <;> omega

/-- A run of iterator steps only reads the entries inside the cursor
window: two arrays that agree on `[start, stop)` produce the same items
and the same final cursor. -/
lemma runIter_congr {T ε : Type} (deser : JsValue → Except ε T)
    (ds : List Dir) (r : NatRange) (a b : List JsValue)
    (hle : r.start ≤ r.stop)
    (hagree : ∀ j, r.start ≤ j → j < r.stop → arrayGet a j = arrayGet b j) :
    (runIter deser ds ⟨r, a⟩).1 = (runIter deser ds ⟨r, b⟩).1 ∧
    (runIter deser ds ⟨r, a⟩).2.range = (runIter deser ds ⟨r, b⟩).2.range := by
  obtain ⟨ha1, ha2⟩ := runIter_eq_runRange deser ds r a
  obtain ⟨hb1, hb2⟩ := runIter_eq_runRange deser ds r b
  obtain ⟨_, _, _, hmem, _, _⟩ := runRange_spec ds r hle
  refine ⟨?_, by rw [ha2, hb2]⟩
  rw [ha1, hb1]
  refine List.map_congr_left fun o ho => ?_
  cases o with
  | none => rfl
  | some i =>
    have hi : i ∈ (runRange ds r).1.filterMap id :=
      List.mem_filterMap.mpr ⟨some i, ho, rfl⟩
    obtain ⟨hi1, hi2, _⟩ := hmem i hi
    simp [hagree i hi1 hi2]

/-- C2: an iterator step that consumes index `i` whose entry fails to
decode yields `Err` for that slot only; the cursor still advances past
`i` (the consumed index lies outside the new cursor window); and every
subsequent run of steps on the same iterator yields exactly the items it
would yield had the failing slot held any other entry — in particular a
successfully decoding one (array with slot `i` replaced). -/
theorem c2_per_slot_failure_isolation {T ε : Type} (deser : JsValue → Except ε T)
    (a : List JsValue) (r : NatRange) (d : Dir) (i : Nat) (e : QError ε)
    (hstep : (r.step d).1 = some i)
    (herr : parse_message deser (arrayGet a i) = .error e) :
    (MessageIter.step deser d ⟨r, a⟩).1 = some (.error e) ∧
    (MessageIter.step deser d ⟨r, a⟩).2 = ⟨(r.step d).2, a⟩ ∧
    (i < (r.step d).2.start ∨ (r.step d).2.stop ≤ i) ∧
    (∀ (v : JsValue) (ds : List Dir),
      (runIter deser ds (MessageIter.step deser d ⟨r, a⟩).2).1 =
        (runIter deser ds ⟨(r.step d).2, a.set i v⟩).1) := by
  obtain ⟨hc1, hc2, hc3, hc4, hc5, hc6⟩ := rangeStep_consumed d r i hstep
  have hstep2 : MessageIter.step deser d ⟨r, a⟩ = (some (.error e), ⟨(r.step d).2, a⟩) := by
    rw [MessageIter.step_eq]
    simp [hstep, herr]
  refine ⟨by rw [hstep2], by rw [hstep2], hc6, ?_⟩
  intro v ds
  rw [hstep2]
  refine (runIter_congr deser ds (r.step d).2 a (a.set i v) hc5 fun j hj1 hj2 => ?_).1
  have hij : i ≠ j := by omega
  rw [arrayGet_set_ne a i j v hij]

/-- Witness for C2: the first entry of a two-entry batch fails to
decode; the step yields that error and the rest is unaffected. -/
theorem c2_per_slot_failure_isolation_witness :
    ((NatRange.mk 0 2).step Dir.fwd).1 = some 0 ∧
    parse_message deserInt (arrayGet [entryBadBody, entryB] 0) =
      .error (.serde "invalid type: expected a number") ∧
    ((MessageIter.step deserInt Dir.fwd ⟨⟨0, 2⟩, [entryBadBody, entryB]⟩).1 =
        some (.error (.serde "invalid type: expected a number")) ∧
      (MessageIter.step deserInt Dir.fwd ⟨⟨0, 2⟩, [entryBadBody, entryB]⟩).2 =
        ⟨((NatRange.mk 0 2).step Dir.fwd).2, [entryBadBody, entryB]⟩ ∧
      (0 < ((NatRange.mk 0 2).step Dir.fwd).2.start ∨
        ((NatRange.mk 0 2).step Dir.fwd).2.stop ≤ 0) ∧
      (∀ (v : JsValue) (ds : List Dir),
        (runIter deserInt ds
            (MessageIter.step deserInt Dir.fwd ⟨⟨0, 2⟩, [entryBadBody, entryB]⟩).2).1 =
          (runIter deserInt ds
            ⟨((NatRange.mk 0 2).step Dir.fwd).2, [entryBadBody, entryB].set 0 v⟩).1)) :=
  ⟨by rfl, by rfl,
    c2_per_slot_failure_isolation deserInt [entryBadBody, entryB] ⟨0, 2⟩ Dir.fwd 0
      (.serde "invalid type: expected a number") (by rfl) (by rfl)⟩

/-- A successful field read implies the entry is an object. -/
lemma reflectGet_ok_obj (m : JsValue) (k : String) (v : JsValue)
    (h : reflectGet m k = .ok v) : ∃ fields, m = .obj fields := by
  cases m <;> simp [reflectGet] at h ⊢

/-- An entry whose `id` field reads back as a non-string decodes to the
missing-identifier error, for every deserializer. -/
lemma parse_missing_id_of_nonstring {T ε : Type} (deser : JsValue → Except ε T)
    (m v : JsValue) (hid : reflectGet m ID_KEY_STR = .ok v)
    (hnone : v.as_string = none) :
    parse_message deser m = .error (missingIdError ε) := by
  obtain ⟨fields, rfl⟩ := reflectGet_ok_obj m ID_KEY_STR v hid
  have hv : ((fields.lookup ID_KEY_STR).getD .undefined) = v := by
    simpa [reflectGet] using hid
  simp [parse_message, reflectGet, hv, hnone]

/-- C4: an entry whose `id` field reads back as a non-string value
(including `undefined` for an absent field) decodes to the
missing-identifier error; conversely, when the `id` field reads back as
a string, the decode never yields the missing-identifier error. -/
theorem c4_missing_id_error {T ε : Type} (deser : JsValue → Except ε T) (m v : JsValue)
    (hid : reflectGet m ID_KEY_STR = .ok v) :
    (v.as_string = none → parse_message deser m = .error (missingIdError ε)) ∧
    (∀ s, v.as_string = some s → parse_message deser m ≠ .error (missingIdError ε)) := by
  refine ⟨fun hnone => parse_missing_id_of_nonstring deser m v hid hnone, ?_⟩
  obtain ⟨fields, rfl⟩ := reflectGet_ok_obj m ID_KEY_STR v hid
  have hv : ((fields.lookup ID_KEY_STR).getD .undefined) = v := by
    simpa [reflectGet] using hid
  · intro s hs
    cases hdes : deser ((fields.lookup BODY_KEY_STR).getD .undefined) with
    | error e =>
      simp [parse_message, reflectGet, hv, hs, hdes, missingIdError]
    | ok body =>
      simp [parse_message, reflectGet, hv, hs, hdes]

/-- Witness for C4: an object entry whose `id` field holds a number. -/
theorem c4_missing_id_error_witness :
    reflectGet (.obj [("id", .num 7)]) ID_KEY_STR = .ok (.num 7) ∧
    (((JsValue.num 7).as_string = none →
        parse_message deserInt (.obj [("id", .num 7)]) = .error (missingIdError String)) ∧
      (∀ s, (JsValue.num 7).as_string = some s →
        parse_message deserInt (.obj [("id", .num 7)]) ≠ .error (missingIdError String))) :=
  ⟨by rfl, c4_missing_id_error deserInt (.obj [("id", .num 7)]) (.num 7) (by rfl)⟩

/-- C5: when the `timestamp` field read itself fails (the entry is not
field-readable), the decode fails with the generic field-access error,
which is a different constructor from both the missing-identifier error
and the deserialization error, so a caller can distinguish them. -/
theorem c5_field_access_error {T ε : Type} (deser : JsValue → Except ε T) (m j : JsValue)
    (hts : reflectGet m TIMESTAMP_KEY_STR = .error j) :
    parse_message deser m = .error (.fieldAccess j) ∧
    (∀ s, (QError.fieldAccess j : QError ε) ≠ .jsError s) ∧
    (∀ e : ε, (QError.fieldAccess j : QError ε) ≠ .serde e) := by
  refine ⟨by simp [parse_message, hts], ?_, ?_⟩
  · intro s h
    exact QError.noConfusion h
  · intro e h
    exact QError.noConfusion h

/-- Witness for C5: a non-object entry; every field read fails. -/
theorem c5_field_access_error_witness :
    reflectGet JsValue.undefined TIMESTAMP_KEY_STR =
      .error (.str "TypeError: Reflect.get called on non-object") ∧
    (parse_message deserInt JsValue.undefined =
        .error (.fieldAccess (.str "TypeError: Reflect.get called on non-object")) ∧
      (∀ s, (QError.fieldAccess (JsValue.str "TypeError: Reflect.get called on non-object") :
          QError String) ≠ .jsError s) ∧
      (∀ e : String,
        (QError.fieldAccess (JsValue.str "TypeError: Reflect.get called on non-object") :
          QError String) ≠ .serde e)) :=
  ⟨by rfl,
    c5_field_access_error deserInt JsValue.undefined
      (.str "TypeError: Reflect.get called on non-object") (by rfl)⟩

/-- C6: when the `timestamp` field is readable, the decode accepts the
read value as-is: a successful decode's timestamp is exactly the
time-value conversion of the value read, and a failed decode is never a
timestamp failure (only the missing-identifier or deserialization
cases remain). -/
theorem c6_timestamp_accepted_as_is {T ε : Type} (deser : JsValue → Except ε T)
    (m tv : JsValue) (hts : reflectGet m TIMESTAMP_KEY_STR = .ok tv) :
    (∀ msg : Message T, parse_message deser m = .ok msg →
      msg.timestamp = dateFrom (jsDateFrom tv)) ∧
    (∀ e : QError ε, parse_message deser m = .error e →
      e = missingIdError ε ∨ ∃ se, e = .serde se) := by
  obtain ⟨fields, rfl⟩ := reflectGet_ok_obj m TIMESTAMP_KEY_STR tv hts
  have htv : ((fields.lookup TIMESTAMP_KEY_STR).getD .undefined) = tv := by
    simpa [reflectGet] using hts
  constructor
  · intro msg hmsg
    cases hid : ((fields.lookup ID_KEY_STR).getD .undefined).as_string with
    | none => simp [parse_message, reflectGet, htv, hid] at hmsg
    | some s =>
      cases hdes : deser ((fields.lookup BODY_KEY_STR).getD .undefined) with
      | error e => simp [parse_message, reflectGet, htv, hid, hdes] at hmsg
      | ok body =>
        simp [parse_message, reflectGet, htv, hid, hdes] at hmsg
        rw [← hmsg]
  · intro e he
    cases hid : ((fields.lookup ID_KEY_STR).getD .undefined).as_string with
    | none =>
      left
      simp [parse_message, reflectGet, htv, hid] at he
      exact he.symm
    | some s =>
      cases hdes : deser ((fields.lookup BODY_KEY_STR).getD .undefined) with
      | error e0 =>
        right
        simp [parse_message, reflectGet, htv, hid, hdes] at he
        exact ⟨e0, he.symm⟩
      | ok body =>
        simp [parse_message, reflectGet, htv, hid, hdes] at he

/-- Witness for C6 at the well-formed entry `entryA`. -/
theorem c6_timestamp_accepted_as_is_witness :
    reflectGet entryA TIMESTAMP_KEY_STR = .ok (.num 1) ∧
    ((∀ msg : Message Int, parse_message deserInt entryA = .ok msg →
        msg.timestamp = dateFrom (jsDateFrom (.num 1))) ∧
      (∀ e : QError String, parse_message deserInt entryA = .error e →
        e = missingIdError String ∨ ∃ se, e = .serde se)) :=
  ⟨by rfl, c6_timestamp_accepted_as_is deserInt entryA (.num 1) (by rfl)⟩

/-- C10: the decode reads `timestamp` first, then `id`, then `body`, and
short-circuits on the first failure: a failed `timestamp` read yields
the field-access error whatever the rest of the entry holds, and an
entry whose `id` value is not a string yields the missing-identifier
error for every deserializer — in particular for one that would reject
the body, showing the body is never passed to the deserializer. -/
theorem c10_read_order_short_circuit {T ε : Type} (m v j : JsValue) :
    (reflectGet m TIMESTAMP_KEY_STR = .error j →
      ∀ deser : JsValue → Except ε T, parse_message deser m = .error (.fieldAccess j)) ∧
    (reflectGet m ID_KEY_STR = .ok v → v.as_string = none →
      ∀ deser : JsValue → Except ε T, parse_message deser m = .error (missingIdError ε)) := by
  constructor
  · intro hts deser
    simp [parse_message, hts]
  · intro hid hnone deser
    exact parse_missing_id_of_nonstring deser m v hid hnone

/-- Witness for C10: an entry with a boolean `id` and a body every
deserializer would reject still decodes to the missing-identifier
error under an always-rejecting deserializer. -/
theorem c10_read_order_short_circuit_witness :
    parse_message (fun _ => (.error "reject" : Except String Int))
        (.obj [("id", .boolean true), ("body", .str "x")]) =
      .error (missingIdError String) :=
  (c10_read_order_short_circuit (.obj [("id", .boolean true), ("body", .str "x")])
      (.boolean true) .undefined).2 (by rfl) (by rfl)
    (fun _ => (.error "reject" : Except String Int))

/-- C7: `send` makes no host submission exactly when serialization
fails, and at most one submission ever; a serialization failure returns
the serialization error with no submission; after a successful
serialization the payload is submitted exactly once and the result is
the transport error wrapping the host's rejection exactly when the host
rejects, success when the host acknowledges. -/
theorem c7_send_error_paths {T ε : Type} (ser : T → Except ε JsValue)
    (host : JsValue → Except JsValue Unit) (v : T) :
    ((Queue.send ser host v).2 = [] ↔ ∃ e, ser v = .error e) ∧
    (Queue.send ser host v).2.length ≤ 1 ∧
    (∀ e, ser v = .error e → Queue.send ser host v = (.error (.serde e), [])) ∧
    (∀ jv, ser v = .ok jv →
      (Queue.send ser host v).2 = [jv] ∧
      (∀ j, ((Queue.send ser host v).1 = .error (.transport j) ↔ host jv = .error j)) ∧
      (host jv = .ok () → (Queue.send ser host v).1 = .ok ())) := by
  cases hser : ser v with
  | error e =>
    refine ⟨iff_of_true (by simp [Queue.send, hser]) ⟨e, rfl⟩, ?_, ?_, ?_⟩
    · simp [Queue.send, hser]
    · intro e' he'
      cases he'
      simp [Queue.send, hser]
    · intro jv hjv
      exact Except.noConfusion hjv
  | ok jv =>
    refine ⟨?_, ?_, ?_, ?_⟩
    · refine iff_of_false ?_ ?_
      · cases hhost : host jv <;> simp [Queue.send, hser, hhost]
      · rintro ⟨e, he⟩
        exact Except.noConfusion he
    · cases hhost : host jv <;> simp [Queue.send, hser, hhost]
    · intro e' he'
      exact Except.noConfusion he'
    · intro jv' hjv'
      cases hjv'
      refine ⟨?_, ?_, ?_⟩
      · cases hhost : host jv <;> simp [Queue.send, hser, hhost]
      · intro j
        cases hhost : host jv with
        | error j0 =>
          simp [Queue.send, hser, hhost]
        | ok u =>
          simp [Queue.send, hser, hhost]
      · intro hhost
        simp [Queue.send, hser, hhost]

/-- Witness for C7 at the total serializer `serInt`, an acknowledging
host, and the value `5`. -/
theorem c7_send_error_paths_witness :
    ((Queue.send serInt hostOkW 5).2 = [] ↔ ∃ e, serInt 5 = .error e) ∧
    (Queue.send serInt hostOkW 5).2.length ≤ 1 ∧
    (∀ e, serInt 5 = .error e → Queue.send serInt hostOkW 5 = (.error (.serde e), [])) ∧
    (∀ jv, serInt 5 = .ok jv →
      (Queue.send serInt hostOkW 5).2 = [jv] ∧
      (∀ j, ((Queue.send serInt hostOkW 5).1 = .error (.transport j) ↔ hostOkW jv = .error j)) ∧
      (hostOkW jv = .ok () → (Queue.send serInt hostOkW 5).1 = .ok ())) :=
  c7_send_error_paths serInt hostOkW 5

/-- C8: given the codec contract (a successfully serialized value
deserializes back to itself), a `send` that completes successfully has
handed the host exactly payloads that deserialize back to the sent
value under `T`'s equality. -/
theorem c8_send_roundtrip {T ε : Type} (ser : T → Except ε JsValue)
    (deser : JsValue → Except ε T) (host : JsValue → Except JsValue Unit) (v : T)
    (hrt : ∀ x jv, ser x = .ok jv → deser jv = .ok x)
    (hok : (Queue.send ser host v).1 = .ok ()) :
    (Queue.send ser host v).2 ≠ [] ∧
    ∀ jv ∈ (Queue.send ser host v).2, deser jv = .ok v := by
  cases hser : ser v with
  | error e => simp [Queue.send, hser] at hok
  | ok jv =>
    cases hhost : host jv with
    | error j => simp [Queue.send, hser, hhost] at hok
    | ok u =>
      constructor
      · simp [Queue.send, hser, hhost]
      · intro jv' hjv'
        simp [Queue.send, hser, hhost] at hjv'
        rw [hjv']
        exact hrt v jv hser

/-- Witness for C8: `serInt`/`deserInt` round-trip and an acknowledged
send of `5`. -/
theorem c8_send_roundtrip_witness :
    (∀ x jv, serInt x = .ok jv → deserInt jv = .ok x) ∧
    (Queue.send serInt hostOkW 5).1 = .ok () ∧
    ((Queue.send serInt hostOkW 5).2 ≠ [] ∧
      ∀ jv ∈ (Queue.send serInt hostOkW 5).2, deserInt jv = .ok 5) :=
  ⟨fun x jv h => by simp [serInt] at h; rw [← h]; rfl, by rfl,
    c8_send_roundtrip serInt deserInt hostOkW 5
      (fun x jv h => by simp [serInt] at h; rw [← h]; rfl) (by rfl)⟩

/-- Calling `retry_all` once more after any positive number of calls
changes nothing. -/
lemma retryAllTimes_succ : ∀ (m : Nat) (b : MessageBatch),
    retryAllTimes (m + 1) b = b.retry_all := by
  intro m
  induction m with
  | zero => intro b; rfl
  | succ k ih =>
    intro b
    have hstep : retryAllTimes (k + 1 + 1) b = retryAllTimes (k + 1) b.retry_all := rfl
    rw [hstep, ih b.retry_all]
    rfl

/-- C9: calling `retry_all` any number `n ≥ 1` of times leaves the batch
in the same state as calling it once (idempotence), and a call changes
no other observable of the batch: the queue name, the entry sequence,
the iterator a fresh `iter()` yields, and its remaining count are all
unchanged. -/
theorem c9_retry_all_idempotent (b : MessageBatch) (n : Nat) (hn : 1 ≤ n) :
    retryAllTimes n b = b.retry_all ∧
    b.retry_all.queue = b.queue ∧
    b.retry_all.messages = b.messages ∧
    b.retry_all.iter = b.iter ∧
    b.retry_all.iter.size_hint = b.iter.size_hint := by
  obtain ⟨m, rfl⟩ : ∃ m, n = m + 1 := ⟨n - 1, by omega⟩
  exact ⟨retryAllTimes_succ m b, rfl, rfl, rfl, rfl⟩

/-- Witness for C9 at the concrete batch and three calls. -/
theorem c9_retry_all_idempotent_witness :
    (1 ≤ 3 ∧ retryAllTimes 3 batchAB = batchAB.retry_all) ∧
    batchAB.retry_all.queue = batchAB.queue ∧
    batchAB.retry_all.messages = batchAB.messages ∧
    batchAB.retry_all.iter = batchAB.iter ∧
    batchAB.retry_all.iter.size_hint = batchAB.iter.size_hint :=
  ⟨⟨by decide, (c9_retry_all_idempotent batchAB 3 (by decide)).1⟩,
    rfl, rfl, rfl, rfl⟩
